import Mathlib

/-!
Verification of the osu! beatmap pack downloader core
(`src/osu_beatmap_pack_downloader/cli.py`), as a shallow embedding:
strings are lists of characters, the filesystem is a partial map from
paths to byte lists, the HTTP side effects of one download attempt are
recorded as an event trace, and the worker pool is a small-step
transition system over a manager state.
-/

namespace OsuDl

/-- Characters of a Lean string literal, used to embed Python string
literals as `List Char`. -/
def str (s : String) : List Char := s.data

/-- The decimal digit character `Char.ofNat (48 + d)` for `d < 10`,
embedding Python's `str` conversion digit by digit. -/
def digitChar (d : Nat) : Char := Char.ofNat (48 + d)

/-- Fuel-driven digit expansion (structural recursion, so that the
kernel can evaluate it); the fuel `n + 1` in `natToDigits` is always
sufficient because `n / 10 < n`. -/
def natToDigitsGo : Nat → Nat → List Char
  | 0, _ => []
  | fuel + 1, n =>
    if n < 10 then [digitChar n]
    else natToDigitsGo fuel (n / 10) ++ [digitChar (n % 10)]

/-- Decimal representation of a natural number as characters, the
embedding of Python's `str(pack_number)` inside an f-string. -/
def natToDigits (n : Nat) : List Char := natToDigitsGo (n + 1) n

/-- Boolean test that the second list starts with the first, the
character-list version of Python's `str.startswith`. -/
def isPrefixL : List Char → List Char → Bool
  | [], _ => true
  | _ :: _, [] => false
  | a :: as, b :: bs => a == b && isPrefixL as bs

/-- Boolean test that `l` ends with the given tail, the embedding of
Python's `str.endswith` used by `_get_filename_from_url`. -/
def listEndsWith (l tail : List Char) : Bool := isPrefixL tail.reverse l.reverse

/-- Boolean substring test, the embedding of Python's `pat in s` used by
`_get_filename_from_url`. -/
def containsSub (pat : List Char) : List Char → Bool
  | [] => isPrefixL pat []
  | c :: rest => isPrefixL pat (c :: rest) || containsSub pat rest

/-- First URL pattern tried by `_get_download_urls`. -/
def urlA (packNumber : Nat) : List Char :=
  str "https://packs.ppy.sh/S" ++ natToDigits packNumber ++
    str "%20-%20osu%21%20Beatmap%20Pack%20%23" ++ natToDigits packNumber ++ str ".zip"

/-- Second URL pattern tried by `_get_download_urls`. -/
def urlB (packNumber : Nat) : List Char :=
  str "https://packs.ppy.sh/S" ++ natToDigits packNumber ++
    str "%20-%20Beatmap%20Pack%20%23" ++ natToDigits packNumber ++ str ".zip"

/-- Third URL pattern tried by `_get_download_urls`. -/
def urlC (packNumber : Nat) : List Char :=
  str "https://packs.ppy.sh/S" ++ natToDigits packNumber ++
    str "%20-%20Beatmap%20Pack%20%23" ++ natToDigits packNumber ++ str ".7z"

/-- Embedding of `DownloadManager._get_download_urls`: the ordered candidate URLs for
one pack number. -/
def getDownloadUrls (packNumber : Nat) : List (List Char) :=
  [urlA packNumber, urlB packNumber, urlC packNumber]

/-- Embedding of `DownloadManager._get_filename_from_url`: derive the local filename
from a candidate URL. -/
def getFilenameFromUrl (url : List Char) (packNumber : Nat) : List Char :=
  if listEndsWith url (str ".7z") then
    str "Beatmap Pack #" ++ natToDigits packNumber ++ str ".7z"
  else if containsSub (str "osu%21") url then
    str "osu! Beatmap Pack #" ++ natToDigits packNumber ++ str ".zip"
  else
    str "Beatmap Pack #" ++ natToDigits packNumber ++ str ".zip"

/-- The on-disk state: a partial map from paths to file contents
(byte lists). -/
def FS : Type := List Char → Option (List Nat)

/-- Embedding of `os.path.exists`. -/
def existsFile (fs : FS) (p : List Char) : Bool := (fs p).isSome

/-- Embedding of `os.path.getsize` (0 when absent; only read on existing files). -/
def getSize (fs : FS) (p : List Char) : Nat := ((fs p).getD []).length

/-- Embedding of `os.remove`. -/
def removeFile (fs : FS) (p : List Char) : FS :=
  fun q => if q = p then none else fs q

/-- Replace the contents stored at a path. -/
def writeFileFS (fs : FS) (p : List Char) (bs : List Nat) : FS :=
  fun q => if q = p then some bs else fs q

/-- Embedding of `os.path.join(self.download_dir, filename)`. -/
def pathJoin (dir filename : List Char) : List Char := dir ++ str "/" ++ filename

/-- The final target path of one candidate URL for a pack. -/
def targetPath (dir url : List Char) (packNumber : Nat) : List Char :=
  pathJoin dir (getFilenameFromUrl url packNumber)

/-- The `<target>.part` sibling used for partial downloads. -/
def partPath (dir url : List Char) (packNumber : Nat) : List Char :=
  targetPath dir url packNumber ++ str ".part"

/-- Observable side effects of one candidate attempt: the HEAD probe (the
code passes it no headers), the streaming GET with its optional
`Range: bytes=K-` offset, and the file operations. -/
inductive Ev where
  | head (url : List Char)
  | get (url : List Char) (rangeOffset : Option Nat)
  | removeEv (p : List Char)
  | openEv (p : List Char) (append : Bool)
  | writeEv (p : List Char) (bytes : List Nat)
  | renameEv (src dst : List Char)
deriving DecidableEq

/-- How the remote end behaves for one URL: status answered to the plain
HEAD probe, the advertised `content-length`, whether `Range` headers on
the GET are honored, the full resource bytes, and fault injection for
the exceptions `_download_pack` catches (a GET that raises, or a stream
that raises after `k` bytes were written). -/
structure Behavior where
  headStatus : Nat
  contentLength : Nat
  honorsRange : Bool
  content : List Nat
  getRaises : Bool
  failAfterBytes : Option Nat
deriving DecidableEq

/-- Body returned by the streaming GET: a range-honoring server answers a
`Range: bytes=k-` request with the suffix from `k`, otherwise the full
content is sent. -/
def rangeBody (beh : Behavior) (rangeOffset : Option Nat) : List Nat :=
  match rangeOffset with
  | some k => if beh.honorsRange then beh.content.drop k else beh.content
  | none => beh.content

/-- Lines 322-366 of `cli.py`: issue the streaming GET (with the headers
dict built earlier), open the `.part` file in append or truncate mode,
write the streamed bytes, and on completion rename the partial file onto
the final target. `resumeSize` is the post-reset offset; `rangeOffset`
is whatever the earlier-built headers dict still holds. -/
def streamAndFinish (url temp filepath : List Char) (beh : Behavior)
    (rangeOffset : Option Nat) (resumeSize : Nat) (fs : FS) (evs : List Ev) :
    Option (List Char × List Char) × FS × List Ev :=
  let evs2 := evs ++ [Ev.get url rangeOffset]
  if beh.getRaises then (none, fs, evs2)
  else
    let body := rangeBody beh rangeOffset
    let appendMode := 0 < resumeSize
    let initial := if appendMode then (fs temp).getD [] else []
    let evs3 := evs2 ++ [Ev.openEv temp appendMode]
    match beh.failAfterBytes with
    | some k =>
        (none, writeFileFS fs temp (initial ++ body.take k),
          evs3 ++ [Ev.writeEv temp (body.take k)])
    | none =>
        (some (url, filepath),
          writeFileFS (removeFile (writeFileFS fs temp (initial ++ body)) temp)
            filepath (initial ++ body),
          evs3 ++ [Ev.writeEv temp body, Ev.renameEv temp filepath])

/-- Lines 274-369 of `cli.py`, one iteration of the candidate loop:
determine the resume offset from any existing `.part` file, build the
`Range` header, probe with a plain HEAD, skip on 404 or other bad
status, reset the offset and delete the partial file when the server
answered 200 to a resume attempt, then stream and finalize. Python
exceptions inside the `try` are modelled by the `none` outcome. -/
def attemptCandidate (resume : Bool) (dir : List Char) (packNumber : Nat)
    (url : List Char) (beh : Behavior) (fs : FS) :
    Option (List Char × List Char) × FS × List Ev :=
  let filepath := targetPath dir url packNumber
  let temp := partPath dir url packNumber
  let resumeSize := if resume && existsFile fs temp then getSize fs temp else 0
  let rangeOffset : Option Nat := if 0 < resumeSize then some resumeSize else none
  if beh.headStatus = 404 then (none, fs, [Ev.head url])
  else if ¬(beh.headStatus = 200 ∨ beh.headStatus = 206) then (none, fs, [Ev.head url])
  else if 0 < resumeSize ∧ beh.headStatus = 200 then
    if existsFile fs temp then
      streamAndFinish url temp filepath beh rangeOffset 0 (removeFile fs temp)
        [Ev.head url, Ev.removeEv temp]
    else
      streamAndFinish url temp filepath beh rangeOffset 0 fs [Ev.head url]
  else
    streamAndFinish url temp filepath beh rangeOffset resumeSize fs [Ev.head url]

/-- One entry of `self.results`: the terminal record a worker stores for
a pack. -/
structure PackResult where
  success : Bool
  url : Option (List Char)
  filePath : Option (List Char)
deriving DecidableEq

/-- The candidate loop of `_download_pack`: try each URL in order, return
the first successful attempt, and after exhausting all candidates return
the terminal failure record `(False, None, None)`. -/
def downloadPackGo (resume : Bool) (dir : List Char) (packNumber : Nat)
    (server : List Char → Behavior) :
    List (List Char) → FS → List Ev → PackResult × FS × List Ev
  | [], fs, evs => (⟨false, none, none⟩, fs, evs)
  | url :: rest, fs, evs =>
    match attemptCandidate resume dir packNumber url (server url) fs with
    | (some (u, fp), fs', evs') => (⟨true, some u, some fp⟩, fs', evs ++ evs')
    | (none, fs', evs') => downloadPackGo resume dir packNumber server rest fs' (evs ++ evs')

/-- Embedding of `DownloadManager._download_pack`: first the existence short-circuit
over all candidate target paths (returning success with no side effects
at the first hit), then the candidate loop. -/
def downloadPack (resume : Bool) (dir : List Char) (packNumber : Nat)
    (server : List Char → Behavior) (fs : FS) : PackResult × FS × List Ev :=
  match (getDownloadUrls packNumber).find?
      (fun u => existsFile fs (targetPath dir u packNumber)) with
  | some u => (⟨true, some u, some (targetPath dir u packNumber)⟩, fs, [])
  | none => downloadPackGo resume dir packNumber server (getDownloadUrls packNumber) fs []

/-- The retry configuration of `_create_optimized_session`: statuses the
transport retries (with backoff, up to `retryTotal` attempts). -/
def statusForcelist : List Nat := [429, 500, 502, 503, 504]

/-- Embedding of `Retry(total=3, ...)` in `_create_optimized_session`. -/
def retryTotal : Nat := 3

/-- Witness download directory. -/
def wDir : List Char := str "packs"

/-- Witness server behavior: range-honoring server with a 2-byte
resource, answering 200 to the plain HEAD probe. -/
def wBehRange : Behavior := ⟨200, 2, true, [7, 8], false, none⟩

/-- Witness server behavior: a server that ignores `Range` requests. -/
def wBehIgnores : Behavior := ⟨200, 2, false, [7, 8], false, none⟩

/-- Witness filesystem: a stale 1-byte partial file for pack 1's first
candidate. -/
def wFsPart : FS :=
  fun p => if p = partPath wDir (urlA 1) 1 then some [9] else none

/-- Witness filesystem: pack 1's second candidate target already exists. -/
def wFsTarget : FS :=
  fun p => if p = targetPath wDir (urlB 1) 1 then some [1, 2, 3] else none

/-- The run of `_download_pack` on the C2 failing input: resume enabled,
a 1-byte `.part` file for pack 1's first candidate, and a range-honoring
server holding the 2-byte resource `[7, 8]`. -/
def c2run : PackResult × FS × List Ev :=
  downloadPack true wDir 1 (fun _ => wBehRange) wFsPart

/-- The empty filesystem. -/
def emptyFS : FS := fun _ => none

/-- Witness server for C6: 404 on the first candidate, a normal server
on the others. -/
def wServer404 : List Char → Behavior :=
  fun u => if u = urlA 1 then ⟨404, 0, false, [], false, none⟩ else wBehRange

/-- Witness server for C7: every candidate's GET raises. -/
def wServerRaises : List Char → Behavior :=
  fun _ => ⟨200, 2, true, [7, 8], true, none⟩

/-- Embedding of `len(chunk) / (self.bandwidth_limit * 1024 * 1024)`, line 357:
the time one chunk should take at the configured ceiling (MB/s). -/
def idealChunkTime (bandwidthLimit chunkLen : ℚ) : ℚ :=
  chunkLen / (bandwidthLimit * 1024 * 1024)

/-- The executor's per-chunk throttle, lines 355-360 of `cli.py`: the
"actual" time compared is `time.time() - start_time`, i.e. the time
elapsed since the whole transfer started; when the single chunk's ideal
time exceeds it, the worker sleeps the difference. -/
def bandwidthSleep (bandwidthLimit chunkLen startTime now : ℚ) : ℚ :=
  let ideal := idealChunkTime bandwidthLimit chunkLen
  let actual := now - startTime
  if actual < ideal then ideal - actual else 0

/-- Modelled from the spec: the claim's reading of the throttle, in
which the elapsed time compared against the chunk's ideal time is the
time spent on that chunk alone (`now - chunkStart`). -/
def claimedChunkSleep (bandwidthLimit chunkLen chunkStart now : ℚ) : ℚ :=
  let ideal := idealChunkTime bandwidthLimit chunkLen
  let actual := now - chunkStart
  if actual < ideal then ideal - actual else 0

/-- State of the `DownloadManager` queue machinery: the pending queue
(seeded by `add_pack`), the `downloads_in_progress` set, and the
`results` map (newest entry first). -/
structure ManagerState where
  pending : List Nat
  inProgress : List Nat
  results : List (Nat × PackResult)

/-- One atomic step of a download worker (`_download_worker`,
lines 104-153): either pull the next pack from the shared queue and mark
it in progress (lines 112-117, under `self.lock`), or finish a pack
currently in progress, atomically recording its terminal result in
`self.results` and removing it from `downloads_in_progress`
(lines 123-141, under `self.lock`). Workers interleave freely, so any
in-progress pack may finish at any step, with any terminal record. -/
inductive WorkerStep : ManagerState → ManagerState → Prop
  | dequeue (p : Nat) (rest ip : List Nat) (r : List (Nat × PackResult)) :
      WorkerStep ⟨p :: rest, ip, r⟩ ⟨rest, p :: ip, r⟩
  | finish (pend ip1 ip2 : List Nat) (i : Nat) (res : PackResult)
      (r : List (Nat × PackResult)) :
      WorkerStep ⟨pend, ip1 ++ i :: ip2, r⟩ ⟨pend, ip1 ++ ip2, (i, res) :: r⟩

theorem digitChar_toNat_le (d : Nat) (h : d < 10) : (digitChar d).toNat ≤ 57 := by
  interval_cases d <;> decide

theorem natToDigitsGo_toNat_le (fuel : Nat) :
    ∀ n, ∀ c ∈ natToDigitsGo fuel n, c.toNat ≤ 57 := by
  induction fuel with
  | zero => intro n c hc; simp [natToDigitsGo] at hc
  | succ fuel ih =>
    intro n c hc
    rw [natToDigitsGo] at hc
    split at hc
    · simp only [List.mem_singleton] at hc
      subst hc
      exact digitChar_toNat_le n (by omega)
    · rcases List.mem_append.1 hc with h1 | h1
      · exact ih (n / 10) c h1
      · simp only [List.mem_singleton] at h1
        subst h1
        exact digitChar_toNat_le (n % 10) (Nat.mod_lt _ (by omega))

theorem natToDigits_toNat_le (n : Nat) : ∀ c ∈ natToDigits n, c.toNat ≤ 57 :=
  natToDigitsGo_toNat_le (n + 1) n

theorem o_not_mem_natToDigits (n : Nat) : 'o' ∉ natToDigits n := by
  intro h
  have := natToDigits_toNat_le n 'o' h
  simp at this

theorem natToDigits_ne_nil (n : Nat) : natToDigits n ≠ [] := by
  rw [natToDigits, natToDigitsGo]
  split <;> simp

theorem mem_of_isPrefixL : ∀ {pat l : List Char}, isPrefixL pat l = true →
    ∀ c ∈ pat, c ∈ l := by
  intro pat
  induction pat with
  | nil => intro l _ c hc; simp at hc
  | cons p ps ih =>
    intro l h c hc
    match l with
    | [] => simp [isPrefixL] at h
    | b :: bs =>
      simp only [isPrefixL, Bool.and_eq_true, beq_iff_eq] at h
      rcases List.mem_cons.1 hc with h1 | h1
      · subst h1; exact h.1 ▸ List.mem_cons_self _ _
      · exact List.mem_cons_of_mem _ (ih h.2 c h1)

theorem mem_of_containsSub : ∀ {pat l : List Char}, containsSub pat l = true →
    ∀ c ∈ pat, c ∈ l := by
  intro pat l
  induction l with
  | nil => intro h c hc; exact mem_of_isPrefixL h c hc
  | cons b bs ih =>
    intro h c hc
    simp only [containsSub, Bool.or_eq_true] at h
    rcases h with h | h
    · exact mem_of_isPrefixL h c hc
    · exact List.mem_cons_of_mem _ (ih h c hc)

theorem isPrefixL_append_right : ∀ {pat l : List Char} (r : List Char),
    isPrefixL pat l = true → isPrefixL pat (l ++ r) = true := by
  intro pat
  induction pat with
  | nil => intro l r _; simp [isPrefixL]
  | cons p ps ih =>
    intro l r h
    match l with
    | [] => simp [isPrefixL] at h
    | b :: bs =>
      simp only [isPrefixL, Bool.and_eq_true, beq_iff_eq] at h ⊢
      exact ⟨h.1, ih r h.2⟩

theorem containsSub_append_left {pat l : List Char} (r : List Char)
    (h : containsSub pat l = true) : containsSub pat (l ++ r) = true := by
  induction l with
  | nil =>
    match pat with
    | [] => cases r <;> simp [containsSub, isPrefixL]
    | p :: ps => simp [containsSub, isPrefixL] at h
  | cons b bs ih =>
    simp only [containsSub, Bool.or_eq_true, List.cons_append] at h ⊢
    rcases h with h | h
    · exact Or.inl (isPrefixL_append_right r h)
    · exact Or.inr (ih h)

theorem containsSub_append_right {pat r : List Char} (l : List Char)
    (h : containsSub pat r = true) : containsSub pat (l ++ r) = true := by
  induction l with
  | nil => simpa using h
  | cons b bs ih =>
    simp only [containsSub, Bool.or_eq_true, List.cons_append]
    exact Or.inr ih

theorem listEndsWith_append_zip_7z (l : List Char) :
    listEndsWith (l ++ str ".zip") (str ".7z") = false := by
  simp [listEndsWith, List.reverse_append, str, isPrefixL]

theorem listEndsWith_append_7z (l : List Char) :
    listEndsWith (l ++ str ".7z") (str ".7z") = true := by
  simp [listEndsWith, List.reverse_append, str, isPrefixL]

theorem containsSub_osu_urlA (n : Nat) :
    containsSub (str "osu%21") (urlA n) = true := by
  unfold urlA
  exact containsSub_append_left _ (containsSub_append_left _
    (containsSub_append_right _ (by decide)))

theorem containsSub_osu_urlB (n : Nat) :
    containsSub (str "osu%21") (urlB n) = false := by
  by_contra h
  have h' : containsSub (str "osu%21") (urlB n) = true := by
    revert h; cases containsSub (str "osu%21") (urlB n) <;> simp
  have hmem := mem_of_containsSub h' 'o' (by decide)
  unfold urlB at hmem
  simp only [List.mem_append] at hmem
  rcases hmem with (((h1 | h1) | h1) | h1) | h1
  · revert h1; decide
  · exact o_not_mem_natToDigits n h1
  · revert h1; decide
  · exact o_not_mem_natToDigits n h1
  · revert h1; decide

theorem getFilenameFromUrl_urlA (n : Nat) :
    getFilenameFromUrl (urlA n) n =
      str "osu! Beatmap Pack #" ++ natToDigits n ++ str ".zip" := by
  unfold getFilenameFromUrl
  have h1 : listEndsWith (urlA n) (str ".7z") = false := by
    have := listEndsWith_append_zip_7z
      (str "https://packs.ppy.sh/S" ++ natToDigits n ++
        str "%20-%20osu%21%20Beatmap%20Pack%20%23" ++ natToDigits n)
    simpa [urlA, List.append_assoc] using this
  rw [h1, containsSub_osu_urlA n]
  simp

theorem getFilenameFromUrl_urlB (n : Nat) :
    getFilenameFromUrl (urlB n) n =
      str "Beatmap Pack #" ++ natToDigits n ++ str ".zip" := by
  unfold getFilenameFromUrl
  have h1 : listEndsWith (urlB n) (str ".7z") = false := by
    have := listEndsWith_append_zip_7z
      (str "https://packs.ppy.sh/S" ++ natToDigits n ++
        str "%20-%20Beatmap%20Pack%20%23" ++ natToDigits n)
    simpa [urlB, List.append_assoc] using this
  rw [h1, containsSub_osu_urlB n]
  simp

theorem getFilenameFromUrl_urlC (n : Nat) :
    getFilenameFromUrl (urlC n) n =
      str "Beatmap Pack #" ++ natToDigits n ++ str ".7z" := by
  unfold getFilenameFromUrl
  have h1 : listEndsWith (urlC n) (str ".7z") = true := by
    have := listEndsWith_append_7z
      (str "https://packs.ppy.sh/S" ++ natToDigits n ++
        str "%20-%20Beatmap%20Pack%20%23" ++ natToDigits n)
    simpa [urlC, List.append_assoc] using this
  rw [h1]
  simp

/-- C9: for every pack number, candidate resolution
(`_get_download_urls` composed with `_get_filename_from_url`) is a pure
function of the identifier: it always yields the same ordered list of
(url, filename) pairs — explicitly computed here — and the three derived
filenames are pairwise distinct, disambiguated by the extension/content
hint embedded in each URL pattern. -/
theorem candidate_resolution_pure_and_distinct (n : Nat) :
    (getDownloadUrls n).map (fun u => (u, getFilenameFromUrl u n)) =
      [(urlA n, str "osu! Beatmap Pack #" ++ natToDigits n ++ str ".zip"),
       (urlB n, str "Beatmap Pack #" ++ natToDigits n ++ str ".zip"),
       (urlC n, str "Beatmap Pack #" ++ natToDigits n ++ str ".7z")] ∧
    ((getDownloadUrls n).map (fun u => getFilenameFromUrl u n)).Pairwise (· ≠ ·) := by
  have h19 : (str "osu! Beatmap Pack #").length = 19 := rfl
  have h14 : (str "Beatmap Pack #").length = 14 := rfl
  have h4 : (str ".zip").length = 4 := rfl
  have h3 : (str ".7z").length = 3 := rfl
  constructor
  · simp [getDownloadUrls, getFilenameFromUrl_urlA, getFilenameFromUrl_urlB,
      getFilenameFromUrl_urlC]
  · simp only [getDownloadUrls, List.map_cons, List.map_nil,
      getFilenameFromUrl_urlA, getFilenameFromUrl_urlB, getFilenameFromUrl_urlC,
      List.pairwise_cons, List.mem_cons, List.mem_singleton, List.not_mem_nil]
    refine ⟨?_, ?_, ?_⟩
    · intro f hf
      rcases hf with hf | hf | hf
      · subst hf
        intro heq
        have := congrArg List.length heq
        simp only [List.length_append, h19, h14, h4] at this
        omega
      · subst hf
        intro heq
        have := congrArg List.length heq
        simp only [List.length_append, h19, h14, h4, h3] at this
        omega
      · exact absurd hf (by simp)
    · intro f hf
      rcases hf with hf | hf
      · subst hf
        intro heq
        have := congrArg List.length heq
        simp only [List.length_append, h14, h4, h3] at this
        omega
      · exact absurd hf (by simp)
    · simp

theorem partPath_ne_targetPath (dir url : List Char) (n : Nat) :
    partPath dir url n ≠ targetPath dir url n := by
  intro h
  have := congrArg List.length h
  simp [partPath, List.length_append, str] at this

/-- C4: if an item's final target path already exists when processing
starts, `_download_pack` returns success immediately with that
candidate's URL and path, leaves the filesystem untouched, and issues no
network request (and no file operation) at all. -/
theorem target_exists_short_circuit (resume : Bool) (dir : List Char) (n : Nat)
    (server : List Char → Behavior) (fs : FS) (u : List Char)
    (h : (getDownloadUrls n).find? (fun v => existsFile fs (targetPath dir v n)) = some u) :
    downloadPack resume dir n server fs =
      (⟨true, some u, some (targetPath dir u n)⟩, fs, []) := by
  unfold downloadPack
  rw [h]

/-- Witness for C4 at pack 1 with the second candidate's target on disk. -/
theorem target_exists_short_circuit_witness :
    downloadPack true wDir 1 (fun _ => wBehRange) wFsTarget =
      (⟨true, some (urlB 1), some (targetPath wDir (urlB 1) 1)⟩, wFsTarget, []) :=
  target_exists_short_circuit true wDir 1 (fun _ => wBehRange) wFsTarget
    (urlB 1) (by decide)

/-- C2 (code bug, evaluated at the failing input): the code builds the
`Range` header but calls `session.head(url, allow_redirects=True)`
without it, so the probe is a plain HEAD and a range-supporting server
answers 200, not 206; the executor then resets the offset and deletes
the partial file, yet the streaming GET still carries the stale
`Range: bytes=1-` while the file is opened in truncating mode, so the
attempt ends "successfully" with a 1-byte final file instead of the full
2-byte remote content — refuting both the range-qualified probe and the
final-size clause of the claim. -/
theorem resume_range_probe_missing_truncates :
    c2run.1.success = true ∧
    c2run.2.1 (targetPath wDir (urlA 1) 1) = some [8] ∧
    Ev.get (urlA 1) (some 1) ∈ c2run.2.2 ∧
    Ev.openEv (partPath wDir (urlA 1) 1) false ∈ c2run.2.2 ∧
    Ev.removeEv (partPath wDir (urlA 1) 1) ∈ c2run.2.2 ∧
    wBehRange.honorsRange = true ∧
    wBehRange.content.length = 2 := by decide

/-- C3: on a resume attempt answered 200 by a server that ignores
partial-content support, the executor resets the offset to 0, deletes
the previous partial file, reopens the partial file in truncating mode
(restarting from the beginning), and the renamed final file is
byte-correct: its bytes equal the full remote content. -/
theorem resume_reset_restart_byte_correct (dir url : List Char) (n : Nat)
    (beh : Behavior) (fs : FS) (stale : List Nat)
    (hstatus : beh.headStatus = 200) (hrange : beh.honorsRange = false)
    (hget : beh.getRaises = false) (hfail : beh.failAfterBytes = none)
    (hpart : fs (partPath dir url n) = some stale) (hlen : 0 < stale.length) :
    (attemptCandidate true dir n url beh fs).1 = some (url, targetPath dir url n) ∧
    (attemptCandidate true dir n url beh fs).2.1 (targetPath dir url n) =
      some beh.content ∧
    (attemptCandidate true dir n url beh fs).2.1 (partPath dir url n) = none ∧
    (attemptCandidate true dir n url beh fs).2.2 =
      [Ev.head url, Ev.removeEv (partPath dir url n),
       Ev.get url (some stale.length), Ev.openEv (partPath dir url n) false,
       Ev.writeEv (partPath dir url n) beh.content,
       Ev.renameEv (partPath dir url n) (targetPath dir url n)] := by
  have hne := partPath_ne_targetPath dir url n
  simp [attemptCandidate, streamAndFinish, existsFile, getSize, hpart, hstatus,
    hrange, hget, hfail, hlen, rangeBody, writeFileFS, removeFile, hne]

/-- Witness for C3: pack 1, stale partial `[9]`, range-ignoring server
with content `[7, 8]`; the final file equals the full content. -/
theorem resume_reset_restart_byte_correct_witness :
    (attemptCandidate true wDir 1 (urlA 1) wBehIgnores wFsPart).2.1
        (targetPath wDir (urlA 1) 1) = some [7, 8] :=
  (resume_reset_restart_byte_correct wDir (urlA 1) 1 wBehIgnores wFsPart [9]
      rfl rfl rfl rfl (by decide) (by decide)).2.1

/-- C10 (implicit): whenever resume is enabled, a partial file of size
K > 0 exists at the attempt's start, and the probe status lets the
attempt proceed (200 or 206), the streaming GET carries
`Range: bytes=K-` computed from the original partial-file size — in
every case, including the 200 case where the resume offset was reset to
0, the partial file deleted, and the output opened in truncating mode,
because the headers dict is built before the probe and never updated. -/
theorem get_always_carries_stale_range (dir url : List Char) (n : Nat)
    (beh : Behavior) (fs : FS) (pb : List Nat)
    (hpart : fs (partPath dir url n) = some pb) (hlen : 0 < pb.length)
    (hstatus : beh.headStatus = 200 ∨ beh.headStatus = 206) :
    Ev.get url (some pb.length) ∈ (attemptCandidate true dir n url beh fs).2.2 := by
  rcases hstatus with h | h <;>
    cases hgr : beh.getRaises <;>
      rcases hfa : beh.failAfterBytes with _ | k <;>
        simp [attemptCandidate, streamAndFinish, existsFile, getSize, hpart, h,
          hgr, hfa, hlen]

/-- Witness for C10 in the reset case: status 200, range-honoring
server, 1-byte partial — the GET still carries `Range: bytes=1-`. -/
theorem get_always_carries_stale_range_witness :
    Ev.get (urlA 1) (some 1) ∈
      (attemptCandidate true wDir 1 (urlA 1) wBehRange wFsPart).2.2 :=
  get_always_carries_stale_range wDir (urlA 1) 1 wBehRange wFsPart [9]
    (by decide) (by decide) (Or.inl rfl)

theorem attemptCandidate_404 (resume : Bool) (dir : List Char) (n : Nat)
    (url : List Char) (beh : Behavior) (fs : FS) (h : beh.headStatus = 404) :
    attemptCandidate resume dir n url beh fs = (none, fs, [Ev.head url]) := by
  simp [attemptCandidate, h]

/-- C6: 404 is not among the statuses the transport retries
(`status_forcelist`), and a candidate whose probe answers 404 is skipped:
the executor proceeds with the remaining candidates in priority order
instead of failing the item. -/
theorem notfound_skips_to_next_candidate (resume : Bool) (dir : List Char)
    (n : Nat) (server : List Char → Behavior) (fs : FS)
    (hpre : (getDownloadUrls n).find?
      (fun v => existsFile fs (targetPath dir v n)) = none)
    (h404 : (server (urlA n)).headStatus = 404) :
    404 ∉ statusForcelist ∧
    downloadPack resume dir n server fs =
      downloadPackGo resume dir n server [urlB n, urlC n] fs [Ev.head (urlA n)] := by
  refine ⟨by decide, ?_⟩
  unfold downloadPack
  rw [hpre]
  show downloadPackGo resume dir n server [urlA n, urlB n, urlC n] fs [] = _
  rw [downloadPackGo, attemptCandidate_404 resume dir n (urlA n) (server (urlA n)) fs h404]
  rfl

/-- Witness for C6 at pack 1. -/
theorem notfound_skips_to_next_candidate_witness :
    404 ∉ statusForcelist ∧
    downloadPack true wDir 1 wServer404 emptyFS =
      downloadPackGo true wDir 1 wServer404 [urlB 1, urlC 1] emptyFS
        [Ev.head (urlA 1)] :=
  notfound_skips_to_next_candidate true wDir 1 wServer404 emptyFS
    (by decide) (by decide)

theorem downloadPackGo_failure_shape (resume : Bool) (dir : List Char) (n : Nat)
    (server : List Char → Behavior) :
    ∀ (urls : List (List Char)) (fs : FS) (evs : List Ev),
      (downloadPackGo resume dir n server urls fs evs).1.success = false →
      (downloadPackGo resume dir n server urls fs evs).1 = ⟨false, none, none⟩ := by
  intro urls
  induction urls with
  | nil => intro fs evs _; rfl
  | cons u rest ih =>
    intro fs evs h
    rw [downloadPackGo] at h ⊢
    rcases ha : attemptCandidate resume dir n u (server u) fs with ⟨r, fs', evs'⟩
    rw [ha] at h
    rcases r with _ | ⟨u', fp⟩
    · exact ih fs' (evs ++ evs') h
    · simp at h

/-- C7: an injected transport/IO error during a candidate attempt is
contained inside `_download_pack`: the attempt just yields no success
and the candidate loop advances to the remaining candidates with the
accumulated state; and whenever the loop ends without success the
terminal record is exactly `success = false` with no resolved URL and no
file path. -/
theorem errors_contained_and_exhaustion_fails (resume : Bool) (dir : List Char)
    (n : Nat) (server : List Char → Behavior) (fs : FS) :
    (∀ url, (server url).getRaises = true →
      (attemptCandidate resume dir n url (server url) fs).1 = none) ∧
    (∀ url rest fs0 evs0,
      (attemptCandidate resume dir n url (server url) fs0).1 = none →
      downloadPackGo resume dir n server (url :: rest) fs0 evs0 =
        downloadPackGo resume dir n server rest
          (attemptCandidate resume dir n url (server url) fs0).2.1
          (evs0 ++ (attemptCandidate resume dir n url (server url) fs0).2.2)) ∧
    ((downloadPack resume dir n server fs).1.success = false →
      (downloadPack resume dir n server fs).1 = ⟨false, none, none⟩) := by
  refine ⟨?_, ?_, ?_⟩
  · intro url h
    simp only [attemptCandidate, streamAndFinish, h]
    split_ifs <;> rfl
  · intro url rest fs0 evs0 h
    rw [downloadPackGo]
    rcases ha : attemptCandidate resume dir n url (server url) fs0 with ⟨r, fs', evs'⟩
    rw [ha] at h
    have hr : r = none := h
    subst hr
    rfl
  · intro h
    unfold downloadPack at h ⊢
    rcases hf : (getDownloadUrls n).find?
        (fun v => existsFile fs (targetPath dir v n)) with _ | u
    · rw [hf] at h
      exact downloadPackGo_failure_shape resume dir n server _ fs [] h
    · rw [hf] at h
      simp at h

/-- Witness for C7: with every GET raising, the item's terminal record
is `(False, None, None)`. -/
theorem errors_contained_and_exhaustion_fails_witness :
    (downloadPack true wDir 1 wServerRaises emptyFS).1 = ⟨false, none, none⟩ :=
  (errors_contained_and_exhaustion_fails true wDir 1 wServerRaises emptyFS).2.2
    (by decide)

theorem streamAndFinish_spec (url temp filepath : List Char) (beh : Behavior)
    (ro : Option Nat) (rs : Nat) (fs fsOuter : FS) (evs : List Ev)
    (hW : ∀ p bs, Ev.writeEv p bs ∉ evs)
    (hR : ∀ a b, Ev.renameEv a b ∉ evs)
    (hne : filepath ≠ temp)
    (hfs : fs filepath = fsOuter filepath) :
    (∀ p bs, Ev.writeEv p bs ∈
        (streamAndFinish url temp filepath beh ro rs fs evs).2.2 → p = temp) ∧
    (∀ a b, Ev.renameEv a b ∈
        (streamAndFinish url temp filepath beh ro rs fs evs).2.2 →
      a = temp ∧ b = filepath) ∧
    ((streamAndFinish url temp filepath beh ro rs fs evs).1 ≠ none →
      ∃ pre, (streamAndFinish url temp filepath beh ro rs fs evs).2.2 =
        pre ++ [Ev.renameEv temp filepath]) ∧
    ((streamAndFinish url temp filepath beh ro rs fs evs).1 = none →
      (∀ a b, Ev.renameEv a b ∉
        (streamAndFinish url temp filepath beh ro rs fs evs).2.2) ∧
      (streamAndFinish url temp filepath beh ro rs fs evs).2.1 filepath =
        fsOuter filepath) := by
  simp only [streamAndFinish]
  cases hgr : beh.getRaises <;> rcases hfa : beh.failAfterBytes with _ | k <;>
    simp only [Bool.false_eq_true, if_true, if_false, ite_true,
      ite_false, reduceIte]
  case false.none =>
    refine ⟨?_, ?_, ?_, ?_⟩
    · intro p bs h
      simp [hW p bs] at h
      exact h.1
    · intro a b h
      simp [hR a b] at h
      exact ⟨h.1, h.2⟩
    · intro _
      exact ⟨(evs ++ [Ev.get url ro]) ++ [Ev.openEv temp (decide (0 < rs))] ++
          [Ev.writeEv temp (rangeBody beh ro)], by simp⟩
    · intro h
      simp at h
  case false.some =>
    refine ⟨?_, ?_, ?_, ?_⟩
    · intro p bs h
      simp [hW p bs] at h
      exact h.1
    · intro a b h
      simp [hR a b] at h
    · intro h
      exact absurd rfl h
    · intro _
      exact ⟨fun a b h => by simp [hR a b] at h, by simp [writeFileFS, hne, hfs]⟩
  case true.none =>
    refine ⟨?_, ?_, ?_, ?_⟩
    · intro p bs h
      simp [hW p bs] at h
    · intro a b h
      simp [hR a b] at h
    · intro h
      exact absurd rfl h
    · intro _
      exact ⟨fun a b h => by simp [hR a b] at h, hfs⟩
  case true.some =>
    refine ⟨?_, ?_, ?_, ?_⟩
    · intro p bs h
      simp [hW p bs] at h
    · intro a b h
      simp [hR a b] at h
    · intro h
      exact absurd rfl h
    · intro _
      exact ⟨fun a b h => by simp [hR a b] at h, hfs⟩

/-- C5: during one candidate attempt, all streamed bytes are written
only to the `<target>.part` path; any rename recorded is exactly
`.part → target`; a successful attempt ends with that rename as its very
last action (after the stream completed); and an attempt that stops
before the rename performs no rename at all and leaves the final target
path untouched on disk — no partially-written file is ever visible at
the final target path. -/
theorem part_file_single_commit (resume : Bool) (dir : List Char) (n : Nat)
    (url : List Char) (beh : Behavior) (fs : FS) :
    (∀ p bs, Ev.writeEv p bs ∈ (attemptCandidate resume dir n url beh fs).2.2 →
      p = partPath dir url n) ∧
    (∀ a b, Ev.renameEv a b ∈ (attemptCandidate resume dir n url beh fs).2.2 →
      a = partPath dir url n ∧ b = targetPath dir url n) ∧
    ((attemptCandidate resume dir n url beh fs).1 ≠ none →
      ∃ pre, (attemptCandidate resume dir n url beh fs).2.2 =
        pre ++ [Ev.renameEv (partPath dir url n) (targetPath dir url n)]) ∧
    ((attemptCandidate resume dir n url beh fs).1 = none →
      (∀ a b, Ev.renameEv a b ∉ (attemptCandidate resume dir n url beh fs).2.2) ∧
      (attemptCandidate resume dir n url beh fs).2.1 (targetPath dir url n) =
        fs (targetPath dir url n)) := by
  have hne : targetPath dir url n ≠ partPath dir url n :=
    fun h => partPath_ne_targetPath dir url n h.symm
  simp only [attemptCandidate]
  split_ifs <;>
    first
      | exact ⟨fun p bs h => by simp at h, fun a b h => by simp at h,
          fun h => absurd rfl h, fun _ => ⟨fun a b h => by simp at h, rfl⟩⟩
      | exact streamAndFinish_spec _ _ _ _ _ _ _ _ _
          (fun p bs => by simp) (fun a b => by simp) hne rfl
      | exact streamAndFinish_spec _ _ _ _ _ _ _ _ _
          (fun p bs => by simp) (fun a b => by simp) hne
          (by simp [removeFile, hne])

/-- Witness for C5: a raising GET at pack 1 stops before the rename and
leaves the final target path untouched (absent). -/
theorem part_file_single_commit_witness :
    (attemptCandidate true wDir 1 (urlA 1) (wServerRaises (urlA 1)) emptyFS).2.1
        (targetPath wDir (urlA 1) 1) = emptyFS (targetPath wDir (urlA 1) 1) :=
  ((part_file_single_commit true wDir 1 (urlA 1) (wServerRaises (urlA 1))
      emptyFS).2.2.2 (by decide)).2

/-- C8 counterexample: transfer started at t = 0 with a 1 MB/s ceiling;
a 1 MiB chunk is received and written instantaneously at t = 5. Its
per-chunk elapsed time (0 s) is below its ideal time (1 s), so the claim
mandates a 1 s sleep — but the code compares against the 5 s elapsed
since transfer start and does not sleep at all. -/
theorem throttle_per_chunk_clock_refuted :
    bandwidthSleep 1 1048576 0 5 = 0 ∧
    claimedChunkSleep 1 1048576 5 5 = 1 ∧
    bandwidthSleep 1 1048576 0 5 ≠ claimedChunkSleep 1 1048576 5 5 := by
  refine ⟨?_, ?_, ?_⟩ <;>
    norm_num [bandwidthSleep, claimedChunkSleep, idealChunkTime]

/-- C8 (amended): with a bandwidth ceiling configured, after writing a
chunk the executor computes the time that chunk should have taken at the
ceiling rate and compares it against the elapsed time since the whole
transfer started (not the elapsed time of that chunk); it sleeps exactly
the positive part of the difference, throttling each worker
independently through its own transfer clock. -/
theorem throttle_sleeps_positive_part_of_transfer_clock
    (bandwidthLimit chunkLen startTime now : ℚ) :
    bandwidthSleep bandwidthLimit chunkLen startTime now =
      max (idealChunkTime bandwidthLimit chunkLen - (now - startTime)) 0 := by
  unfold bandwidthSleep
  rcases lt_or_le (now - startTime) (idealChunkTime bandwidthLimit chunkLen) with h | h
  · rw [if_pos h, eq_comm, max_eq_left_iff]
    linarith
  · rw [if_neg (not_lt.2 h), eq_comm, max_eq_right_iff]
    linarith

theorem workerStep_perm {s t : ManagerState} (h : WorkerStep s t) :
    (t.pending ++ t.inProgress ++ t.results.map Prod.fst).Perm
      (s.pending ++ s.inProgress ++ s.results.map Prod.fst) := by
  cases h with
  | dequeue p rest ip r =>
    simp only [List.append_assoc, List.cons_append]
    exact List.perm_middle
  | finish pend ip1 ip2 i res r =>
    simp only [List.append_assoc, List.cons_append, List.map_cons]
    exact List.Perm.append_left pend (List.Perm.append_left ip1 List.perm_middle)

theorem reach_perm (init s : ManagerState)
    (h : Relation.ReflTransGen WorkerStep init s) :
    (s.pending ++ s.inProgress ++ s.results.map Prod.fst).Perm
      (init.pending ++ init.inProgress ++ init.results.map Prod.fst) := by
  induction h with
  | refl => exact List.Perm.refl _
  | tail _ hstep ih => exact (workerStep_perm hstep).trans ih

/-- C1: starting from a queue seeded with a duplicate-free list of pack
numbers, empty in-progress set and empty results map, any run of the
worker pool that ends with the queue drained and no download still in
progress has recorded exactly one terminal outcome per enqueued pack:
the keys of `results` are a permutation of the enqueued identifiers and
are duplicate-free, so the number of terminal records equals the number
of items enqueued — no item dropped, none double-processed. -/
theorem results_complete_no_dup (ids : List Nat) (s : ManagerState)
    (hreach : Relation.ReflTransGen WorkerStep ⟨ids, [], []⟩ s)
    (hdrained : s.pending = []) (hdone : s.inProgress = [])
    (hnodup : ids.Nodup) :
    s.results.length = ids.length ∧
    (s.results.map Prod.fst).Perm ids ∧
    (s.results.map Prod.fst).Nodup := by
  have hperm := reach_perm _ _ hreach
  rw [hdrained, hdone] at hperm
  simp only [List.map_nil, List.nil_append, List.append_nil] at hperm
  exact ⟨by simpa using hperm.length_eq, hperm, hperm.nodup_iff.2 hnodup⟩

/-- Witness for C1: a run on the single pack 1 — dequeue, then finish —
yields a results map whose keys are exactly the enqueued list. -/
theorem results_complete_no_dup_witness :
    (([((1 : Nat), (⟨true, none, none⟩ : PackResult))]).map Prod.fst).Perm [1] := by
  have h1 : WorkerStep ⟨[1], [], []⟩ ⟨[], [1], []⟩ := WorkerStep.dequeue 1 [] [] []
  have h2 : WorkerStep ⟨[], [1], []⟩ ⟨[], [], [(1, ⟨true, none, none⟩)]⟩ :=
    WorkerStep.finish [] [] [] 1 ⟨true, none, none⟩ []
  exact (results_complete_no_dup [1] ⟨[], [], [(1, ⟨true, none, none⟩)]⟩
    (Relation.ReflTransGen.tail
      (Relation.ReflTransGen.tail Relation.ReflTransGen.refl h1) h2)
    rfl rfl (by decide)).2.1

end OsuDl
